import Mathlib

/-!
# Verification of the polyglot-pdf text-overlay pipeline

A shallow embedding, over `ℚ`, of the parts of the application that the
specification talks about:

* `extractTextSegments` (pdf service) — turning pdf.js text items into
  normalized text segments;
* `drawAutoFitText` and the canvas selection handlers (`handleMouseUp`)
  of the translated-page component;
* the translation pass `runPass` (`startTranslation`), with the free
  (`translateFree`) and AI (`translateEconomic`) backends;
* the IndexedDB layer (`deleteProject`, `getFile`, `getProjectPages`).

JavaScript numbers are modelled as rationals.  `Math.sqrt` appears only as
an opaque parameter `sqrtFn` (the code never relies on its values, only
stores the result), and canvas `measureText` is modelled as linear in the
font size (`fontSize * unitWidth text`), which is how a canvas scales a
single-line run of text.
-/

namespace PolyglotPdf

/-- JavaScript `a || b` on strings: the empty string is falsy.  A missing
array entry (`undefined`) is modelled as `""`, which is likewise falsy. -/
def jsOr (a b : String) : String := if a = "" then b else a

/-- JavaScript `String.prototype.trim`: drop whitespace from both ends.
(Core's `String.trim` computes the same string but is built on substring
primitives that the kernel cannot evaluate, so the model works on the
character list directly.) -/
def jsTrim (s : String) : String :=
  ⟨((s.data.dropWhile Char.isWhitespace).reverse.dropWhile Char.isWhitespace).reverse⟩

/-- A pdf.js rendering viewport at scale 1.0. -/
structure Viewport where
  width : ℚ
  height : ℚ

/-- A pdf.js text item: `str`, the 6-entry `transform` matrix, `width`,
`fontName`. -/
structure TextItem where
  str : String
  t0 : ℚ
  t1 : ℚ
  t2 : ℚ
  t3 : ℚ
  t4 : ℚ
  t5 : ℚ
  width : ℚ
  fontName : String

/-- The segment record produced by `extractTextSegments` and stored with
each translated page.  `originalText` is added later by the merge in
`startTranslation` (the extraction leaves it empty). -/
structure TextSegment where
  text : String
  width : ℚ
  height : ℚ
  fontSize : ℚ
  xRatio : ℚ
  yRatio : ℚ
  widthRatio : ℚ
  heightRatio : ℚ
  viewportWidth : ℚ
  viewportHeight : ℚ
  fontName : String
  originalText : String := ""
deriving DecidableEq

/-- The body of the `.map` in `extractTextSegments`: one text item to one
segment.  `sqrtFn` stands for `Math.sqrt`. -/
def mkSegment (sqrtFn : ℚ → ℚ) (vp : Viewport) (item : TextItem) : TextSegment :=
  let tx := item.t4
  let ty := item.t5
  let fontSize := sqrtFn (item.t0 * item.t0 + item.t1 * item.t1)
  { text := item.str
    width := item.width
    height := fontSize
    fontSize := fontSize
    xRatio := tx / vp.width
    yRatio := (vp.height - ty) / vp.height
    widthRatio := item.width / vp.width
    heightRatio := fontSize / vp.height
    viewportWidth := vp.width
    viewportHeight := vp.height
    fontName := item.fontName }

/-- `extractTextSegments`: filter items whose `str` is truthy with a
non-empty trim, then map each to its segment. -/
def extractTextSegments (sqrtFn : ℚ → ℚ) (vp : Viewport) (items : List TextItem) :
    List TextSegment :=
  (items.filter fun item => item.str != "" && decide (0 < (jsTrim item.str).length)).map
    (mkSegment sqrtFn vp)

/-! ## Canvas rendering: `drawAutoFitText` -/

/-- The single `fillText` call a draw produces: the text is painted once,
on one line, at `(x, y)` with the given font size. -/
structure DrawOp where
  text : String
  x : ℚ
  y : ℚ
  fontSize : ℚ
deriving DecidableEq

/-- Canvas `measureText` for a single-line run: linear in the font size,
`unitWidth text` being the width of `text` at font size 1. -/
def measureTextWidth (unitWidth : String → ℚ) (fontSize : ℚ) (text : String) : ℚ :=
  fontSize * unitWidth text

/-- `drawAutoFitText`: measure at the base size; if the measured width
exceeds a positive `maxWidth`, scale the font size by
`maxWidth / measuredWidth`; then paint the text once. -/
def drawAutoFitText (unitWidth : String → ℚ) (text : String)
    (x y maxWidth baseFontSize : ℚ) : DrawOp :=
  let fontSize := baseFontSize
  let w := measureTextWidth unitWidth fontSize text
  if w > maxWidth ∧ maxWidth > 0 then
    let ratio := maxWidth / w
    { text := text, x := x, y := y, fontSize := baseFontSize * ratio }
  else
    { text := text, x := x, y := y, fontSize := fontSize }

/-! ## Selection handling (`TranslatedCanvasPage.handleMouseUp`) -/

/-- A point in normalized canvas coordinates (`getCoords`). -/
structure Pt where
  x : ℚ
  y : ℚ
deriving DecidableEq

/-- The AABB overlap test of `handleMouseUp`: the segment box
`[xRatio, xRatio+widthRatio] × [yRatio−heightRatio, yRatio]` against
the box `[x1,x2] × [y1,y2]` (`sx1 < x2 && sx2 > x1 && sy1 < y2 && sy2 > y1`). -/
def segBoxOverlap (s : TextSegment) (x1 x2 y1 y2 : ℚ) : Bool :=
  decide (s.xRatio < x2) && decide (s.xRatio + s.widthRatio > x1) &&
    decide (s.yRatio - s.heightRatio < y2) && decide (s.yRatio > y1)

/-- The `reduce` that collects the indices of segments overlapping the box
spanned by the two gesture points. -/
def boxNewIndices (segs : List TextSegment) (p q : Pt) : List ℕ :=
  let x1 := min p.x q.x
  let x2 := max p.x q.x
  let y1 := min p.y q.y
  let y2 := max p.y q.y
  (segs.enum.filter fun pr => segBoxOverlap pr.2 x1 x2 y1 y2).map Prod.fst

/-- JavaScript `Array.from(new Set(l))`: deduplicate keeping the first
occurrence of each element. -/
def jsSetDedupAux : List ℕ → List ℕ → List ℕ
  | [], _ => []
  | a :: l, seen => if a ∈ seen then jsSetDedupAux l seen else a :: jsSetDedupAux l (a :: seen)

def jsSetDedup (l : List ℕ) : List ℕ := jsSetDedupAux l []

/-- `onSelectionChange(Array.from(new Set([...selectedIndices, ...newIndices])))`. -/
def applyBoxSelect (segs : List TextSegment) (sel : List ℕ) (p q : Pt) : List ℕ :=
  jsSetDedup (sel ++ boxNewIndices segs p q)

/-- Squared Euclidean distance.  The handler compares
`Math.sqrt(distSq)` against thresholds that are all nonnegative; since
the square root is strictly monotone on nonnegatives, comparing the
squares is equivalent, and keeps the model inside `ℚ`. -/
def distSq (p q : Pt) : ℚ :=
  (p.x - q.x) * (p.x - q.x) + (p.y - q.y) * (p.y - q.y)

/-- The anchor point of a segment used by nearest-point picking:
`(xRatio + widthRatio/2, yRatio − heightRatio/2)`. -/
def segAnchor (s : TextSegment) : Pt :=
  ⟨s.xRatio + s.widthRatio / 2, s.yRatio - s.heightRatio / 2⟩

/-- The `forEach` loop of the single-mode branch: the index of the
nearest segment whose anchor is strictly within distance `0.05` of the
release point (`best = -1` is modelled as `none`).  Distances are
compared squared; `0.05² = (5/100)²`. -/
def findNearest (segs : List TextSegment) (e : Pt) : Option ℕ :=
  (segs.enum.foldl
      (fun acc pr =>
        let d := distSq e (segAnchor pr.2)
        if d < acc.2 then (some pr.1, d) else acc)
      ((none : Option ℕ), (5 / 100 : ℚ) * (5 / 100))).1

/-- The nearest-point branch: toggle the membership of the nearest
segment, or leave the selection alone when no segment is in range. -/
def singlePick (segs : List TextSegment) (sel : List ℕ) (e : Pt) : List ℕ :=
  match findNearest segs e with
  | none => sel
  | some best => if best ∈ sel then sel.filter (fun i => i != best) else sel ++ [best]

/-- Selection mode of the editor. -/
inductive SelMode
  | single
  | area
  | points
deriving DecidableEq

/-- The component state the mouse-up handler reads and writes. -/
structure CanvasState where
  pointAnchor : Option Pt
  dragStart : Option Pt
deriving DecidableEq

/-- `handleMouseUp` (edit mode): returns the selection reported through
`onSelectionChange` (or the unchanged one) together with the new state.
Points mode: first click stores the anchor, second click box-selects
between anchor and release.  Otherwise: box-select when in area mode
with a drag start whose horizontal distance to the release exceeds
`0.01`, else nearest-point picking; the drag start is cleared. -/
def handleMouseUp (mode : SelMode) (segs : List TextSegment) (sel : List ℕ)
    (st : CanvasState) (e : Pt) : List ℕ × CanvasState :=
  match mode with
  | .points =>
    match st.pointAnchor with
    | none => (sel, { st with pointAnchor := some e })
    | some a => (applyBoxSelect segs sel a e, { st with pointAnchor := none })
  | m =>
    let res :=
      match st.dragStart with
      | some d =>
        if m = SelMode.area ∧ |e.x - d.x| > 1 / 100 then applyBoxSelect segs sel d e
        else singlePick segs sel e
      | none => singlePick segs sel e
    (res, { pointAnchor := st.pointAnchor, dragStart := none })

/-! ## The translation pass (`startTranslation`) and backends -/

/-- Outcome of the network/parse part of a backend call for one page:
the request threw, the response was malformed / empty, or it produced a
list of translated strings. -/
inductive FetchOutcome
  | fail (e : String)
  | malformed
  | okParts (parts : List String)

/-- `translateFree` (free backend), modelled at the network boundary:
the technical-token protection is an invertible pre/post rewriting of
the individual strings and is abstracted away; what is kept is the
control flow of the source: empty input returns `[]`; a thrown fetch
error or a malformed payload is caught and the original `texts` are
returned; otherwise each slot takes `translatedParts[i] || original`.
The function is total: it never raises. -/
def translateFree (outcome : FetchOutcome) (texts : List String) : List String :=
  if texts = [] then []
  else
    match outcome with
    | .fail _ => texts
    | .malformed => texts
    | .okParts parts => texts.enum.map fun pr => jsOr (parts.getD pr.1 "") pr.2

/-- `translateEconomic` (AI backend, gemini service): throws when no API
key is configured; empty input returns `[]` before the call; a thrown
call or an empty model response is re-thrown with the
`Falha na tradução IA:` prefix; otherwise the parsed array is returned. -/
def translateEconomic (apiKey : Option String) (outcome : FetchOutcome)
    (texts : List String) : Except String (List String) :=
  match apiKey with
  | none =>
    .error "API_KEY não configurada. Por favor, insira sua chave no botão de configuração no topo da página."
  | some _ =>
    if texts = [] then .ok []
    else
      match outcome with
      | .fail e => .error ("Falha na tradução IA: " ++ e ++ ". Verifique se sua API Key é válida.")
      | .malformed =>
        .error "Falha na tradução IA: A IA retornou uma resposta vazia.. Verifique se sua API Key é válida."
      | .okParts parts => .ok parts

/-- The merge of `startTranslation`:
`segs.map((s, i) => ({ ...s, text: translatedTexts[i] || s.text, originalText: s.text }))`. -/
def mergeSegments (segs : List TextSegment) (ts : List String) : List TextSegment :=
  segs.enum.map fun pr =>
    { pr.2 with text := jsOr (ts.getD pr.1 "") pr.2.text, originalText := pr.2.text }

/-- The page loop of `startTranslation` over the page numbers `ns` of the
requested range.  `pages n` is the extraction result for page `n`,
`outcome n` the backend call outcome on that page.  Returns the entries
saved through `db.savePage`, in order, and the `alert` message of the
`catch` block if the loop aborted (`alert(e.message || "Erro na tradução.")`). -/
def runPass (useAI : Bool) (apiKey : Option String) (pages : ℕ → List TextSegment)
    (outcome : ℕ → FetchOutcome) : List ℕ → List (ℕ × List TextSegment) × Option String
  | [] => ([], none)
  | n :: rest =>
    let segs := pages n
    let texts := segs.map (·.text)
    let result : Except String (List String) :=
      if useAI then translateEconomic apiKey (outcome n) texts
      else .ok (translateFree (outcome n) texts)
    match result with
    | .error e => ([], some (jsOr e "Erro na tradução."))
    | .ok ts =>
      let next := runPass useAI apiKey pages outcome rest
      ((n, mergeSegments segs ts) :: next.1, next.2)

/-! ## IndexedDB layer (`services/db.ts`) -/

/-- A record of the `projects` store (keyPath `id`). -/
structure ProjectRec where
  id : String
  name : String
deriving DecidableEq

/-- A record of the `pages` store (keyPath `id`, index on `projectId`). -/
structure PageRec where
  id : String
  projectId : String
  pageNumber : ℕ
  segments : List TextSegment
deriving DecidableEq

/-- A record of the `files` store (keyPath `projectId`); the blob is a
byte list. -/
structure FileRec where
  projectId : String
  data : List ℕ
deriving DecidableEq

/-- The three stores the claims touch. -/
structure DBState where
  projects : List ProjectRec
  pages : List PageRec
  files : List FileRec

/-- `deleteProject`: one transaction deleting the `projects` record, the
`files` record, and — via `index('projectId').getAllKeys(projectId)` —
every `pages` record keyed to the project. -/
def deleteProject (db : DBState) (projectId : String) : DBState :=
  let keys := (db.pages.filter fun pg => pg.projectId == projectId).map (·.id)
  { projects := db.projects.filter fun p => p.id != projectId
    files := db.files.filter fun f => f.projectId != projectId
    pages := keys.foldl (fun st k => st.filter fun pg => pg.id != k) db.pages }

/-- `getAllProjects`: `store.getAll()`. -/
def getAllProjects (db : DBState) : List ProjectRec := db.projects

/-- `getFile`: `request.result?.data || null`. -/
def getFile (db : DBState) (projectId : String) : Option (List ℕ) :=
  match db.files.find? (fun f => f.projectId == projectId) with
  | some f => some f.data
  | none => none

/-- `getProjectPages`: `index('projectId').getAll(projectId)`. -/
def getProjectPages (db : DBState) (projectId : String) : List PageRec :=
  db.pages.filter fun pg => pg.projectId == projectId

/-! ## Spec-side definitions (written from the specification's wording) -/

/-- The per-item segment exactly as the spec words it: `fontSize` is
`sqrt(a² + b²)` for the first two transform components, `xRatio` is
`tx / viewportWidth`, `yRatio` is `(viewportHeight − ty) / viewportHeight`,
`widthRatio` is `itemWidth / viewportWidth`, `heightRatio` is
`fontSize / viewportHeight`. -/
def segmentSpec (sqrtFn : ℚ → ℚ) (vp : Viewport) (item : TextItem) : TextSegment :=
  let fontSize := sqrtFn (item.t0 ^ 2 + item.t1 ^ 2)
  { text := item.str
    width := item.width
    height := fontSize
    fontSize := fontSize
    xRatio := item.t4 / vp.width
    yRatio := (vp.height - item.t5) / vp.height
    widthRatio := item.width / vp.width
    heightRatio := fontSize / vp.height
    viewportWidth := vp.width
    viewportHeight := vp.height
    fontName := item.fontName }

/-- The segment of the spec's worked selection example:
ratios `(xRatio = 0.2, yRatio = 0.3, widthRatio = 0.1, heightRatio = 0.05)`. -/
def exampleSegment : TextSegment :=
  { text := "t"
    width := 1
    height := 1
    fontSize := 1
    xRatio := 1 / 5
    yRatio := 3 / 10
    widthRatio := 1 / 10
    heightRatio := 1 / 20
    viewportWidth := 1
    viewportHeight := 1
    fontName := "f" }

/-- A segment whose box straddles the vertical line `x = 0.3`
(box `[0.25, 0.35] × [0.4, 0.5]`), used to exercise a purely vertical
drag. -/
def verticalDragSegment : TextSegment :=
  { text := "v"
    width := 1
    height := 1
    fontSize := 1
    xRatio := 1 / 4
    yRatio := 1 / 2
    widthRatio := 1 / 10
    heightRatio := 1 / 10
    viewportWidth := 1
    viewportHeight := 1
    fontName := "f" }

/-- A text item whose transform origin lies left of the page
(`tx = −10`). -/
def negativeXItem : TextItem :=
  { str := "a", t0 := 1, t1 := 0, t2 := 0, t3 := 1, t4 := -10, t5 := 20,
    width := 30, fontName := "f" }

/-- A text item entirely inside a `100 × 100` viewport. -/
def inBoundsItem : TextItem :=
  { str := "a", t0 := 1, t1 := 0, t2 := 0, t3 := 1, t4 := 10, t5 := 20,
    width := 30, fontName := "f" }

/-- A segment carrying only a text, for exercising the merge and the
translation pass. -/
def plainSegment (t : String) : TextSegment :=
  { text := t
    width := 0
    height := 0
    fontSize := 0
    xRatio := 0
    yRatio := 0
    widthRatio := 0
    heightRatio := 0
    viewportWidth := 1
    viewportHeight := 1
    fontName := "f" }

/-! ## Helper lemmas -/

theorem length_pos_iff_ne_empty (s : String) : 0 < s.length ↔ s ≠ "" := by
  cases s with
  | mk l =>
    constructor
    · intro h he
      have : l = [] := by
        have := congrArg String.data he
        simpa using this
      simp [String.length, this] at h
    · intro h
      have hl : l ≠ [] := by
        intro he
        exact h (by simp [he])
      simpa [String.length] using List.length_pos.mpr hl

theorem jsTrim_empty : jsTrim "" = "" := rfl

/-- C1: for every list of PDF text items, `extractTextSegments` produces
exactly one segment per item whose trimmed string is non-empty, in
document order, and each produced segment carries exactly the spec's
formulas: `fontSize = sqrt(a² + b²)`, `xRatio = tx / viewportWidth`,
`yRatio = (viewportHeight − ty) / viewportHeight`,
`widthRatio = itemWidth / viewportWidth`,
`heightRatio = fontSize / viewportHeight`. -/
theorem extractTextSegments_spec (sqrtFn : ℚ → ℚ) (vp : Viewport) (items : List TextItem) :
    extractTextSegments sqrtFn vp items =
      (items.filter fun it => decide (jsTrim it.str ≠ "")).map (segmentSpec sqrtFn vp) := by
  have hfilter :
      (items.filter fun it => it.str != "" && decide (0 < (jsTrim it.str).length)) =
        items.filter fun it => decide (jsTrim it.str ≠ "") := by
    apply List.filter_congr
    intro it _
    by_cases h : jsTrim it.str = ""
    · simp [h]
    · have hs : it.str ≠ "" := fun he => h (by rw [he]; exact jsTrim_empty)
      simp [h, hs, (length_pos_iff_ne_empty (jsTrim it.str)).mpr h]
  have hmap : mkSegment sqrtFn vp = segmentSpec sqrtFn vp := by
    funext item
    simp [mkSegment, segmentSpec, pow_two]
  rw [extractTextSegments, hfilter, hmap]

theorem mem_jsSetDedupAux (a : ℕ) :
    ∀ (l seen : List ℕ), a ∈ jsSetDedupAux l seen ↔ a ∈ l ∧ a ∉ seen := by
  intro l
  induction l with
  | nil => intro seen; simp [jsSetDedupAux]
  | cons b l ih =>
    intro seen
    by_cases hb : b ∈ seen
    · by_cases hab : a = b
      · subst hab
        simp [jsSetDedupAux, hb, ih, hb]
      · simp [jsSetDedupAux, hb, ih, hab]
    · by_cases hab : a = b
      · subst hab
        simp [jsSetDedupAux, hb, ih]
      · simp [jsSetDedupAux, hb, ih, hab]

theorem nodup_jsSetDedupAux : ∀ (l seen : List ℕ), (jsSetDedupAux l seen).Nodup := by
  intro l
  induction l with
  | nil => intro seen; simp [jsSetDedupAux]
  | cons b l ih =>
    intro seen
    by_cases hb : b ∈ seen
    · simpa [jsSetDedupAux, hb] using ih seen
    · have hrw : jsSetDedupAux (b :: l) seen = b :: jsSetDedupAux l (b :: seen) := by
        simp [jsSetDedupAux, hb]
      rw [hrw]
      refine List.nodup_cons.mpr ⟨?_, ih (b :: seen)⟩
      intro hmem
      rcases (mem_jsSetDedupAux b l (b :: seen)).mp hmem with ⟨-, hnot⟩
      exact hnot (List.mem_cons_self b seen)

theorem mem_jsSetDedup (a : ℕ) (l : List ℕ) : a ∈ jsSetDedup l ↔ a ∈ l := by
  simp [jsSetDedup, mem_jsSetDedupAux]

theorem nodup_jsSetDedup (l : List ℕ) : (jsSetDedup l).Nodup :=
  nodup_jsSetDedupAux l []

theorem mem_boxNewIndices (segs : List TextSegment) (p q : Pt) (i : ℕ) :
    i ∈ boxNewIndices segs p q ↔
      ∃ s, segs[i]? = some s ∧
        segBoxOverlap s (min p.x q.x) (max p.x q.x) (min p.y q.y) (max p.y q.y) = true := by
  simp only [boxNewIndices, List.mem_map, List.mem_filter]
  constructor
  · rintro ⟨⟨j, s⟩, ⟨hmem, hov⟩, rfl⟩
    exact ⟨s, List.mk_mem_enum_iff_getElem?.mp hmem, hov⟩
  · rintro ⟨s, hget, hov⟩
    exact ⟨(i, s), ⟨List.mk_mem_enum_iff_getElem?.mpr hget, hov⟩, rfl⟩

theorem mem_applyBoxSelect (segs : List TextSegment) (sel : List ℕ) (p q : Pt) (i : ℕ) :
    i ∈ applyBoxSelect segs sel p q ↔ i ∈ sel ∨ i ∈ boxNewIndices segs p q := by
  simp [applyBoxSelect, mem_jsSetDedup]

/-- C3: in points mode (on the second click) and in area mode (when the
drag passed the dead-zone), the selection reported on completing the
gesture is the deduplicated union of the previous selection with exactly
those segment indices whose box
`[xRatio, xRatio+widthRatio] × [yRatio−heightRatio, yRatio]` overlaps
the axis-aligned box spanned by the two gesture points; and the spec's
worked example — segment `(0.2, 0.3, 0.1, 0.05)` is included by the box
`(0.15,0.2)–(0.35,0.3)` and excluded by `(0.5,0.5)–(0.6,0.6)`. -/
theorem handleMouseUp_box_characterization :
    (∀ (segs : List TextSegment) (sel : List ℕ) (ds : Option Pt) (a e : Pt),
        (handleMouseUp .points segs sel ⟨some a, ds⟩ e).1.Nodup ∧
          ∀ i, i ∈ (handleMouseUp .points segs sel ⟨some a, ds⟩ e).1 ↔
            i ∈ sel ∨ ∃ s, segs[i]? = some s ∧
              segBoxOverlap s (min a.x e.x) (max a.x e.x) (min a.y e.y) (max a.y e.y) = true) ∧
    (∀ (segs : List TextSegment) (sel : List ℕ) (pa : Option Pt) (d e : Pt),
        |e.x - d.x| > 1 / 100 →
        (handleMouseUp .area segs sel ⟨pa, some d⟩ e).1.Nodup ∧
          ∀ i, i ∈ (handleMouseUp .area segs sel ⟨pa, some d⟩ e).1 ↔
            i ∈ sel ∨ ∃ s, segs[i]? = some s ∧
              segBoxOverlap s (min d.x e.x) (max d.x e.x) (min d.y e.y) (max d.y e.y) = true) ∧
    (handleMouseUp .points [exampleSegment] [] ⟨some ⟨3/20, 1/5⟩, none⟩ ⟨7/20, 3/10⟩).1 = [0] ∧
    (handleMouseUp .points [exampleSegment] [] ⟨some ⟨1/2, 1/2⟩, none⟩ ⟨3/5, 3/5⟩).1 = [] := by
  refine ⟨?_, ?_, ?_, ?_⟩
  · intro segs sel ds a e
    have hred : (handleMouseUp .points segs sel ⟨some a, ds⟩ e).1 = applyBoxSelect segs sel a e :=
      rfl
    rw [hred]
    exact ⟨nodup_jsSetDedup _, fun i => by rw [mem_applyBoxSelect, mem_boxNewIndices]⟩
  · intro segs sel pa d e h
    have hred : (handleMouseUp .area segs sel ⟨pa, some d⟩ e).1 = applyBoxSelect segs sel d e := by
      show (if SelMode.area = SelMode.area ∧ |e.x - d.x| > 1 / 100
          then applyBoxSelect segs sel d e else singlePick segs sel e) = applyBoxSelect segs sel d e
      rw [if_pos ⟨rfl, h⟩]
    rw [hred]
    exact ⟨nodup_jsSetDedup _, fun i => by rw [mem_applyBoxSelect, mem_boxNewIndices]⟩
  · norm_num [handleMouseUp, applyBoxSelect, boxNewIndices, segBoxOverlap, jsSetDedup,
      jsSetDedupAux, exampleSegment, List.enum, List.enumFrom, List.filter, min_def, max_def]
  · norm_num [handleMouseUp, applyBoxSelect, boxNewIndices, segBoxOverlap, jsSetDedup,
      jsSetDedupAux, exampleSegment, List.enum, List.enumFrom, List.filter, min_def, max_def]

/-- Witness for `handleMouseUp_box_characterization`: the area-mode part
applied to a drag from `(0.15, 0.2)` to `(0.35, 0.3)`, whose horizontal
displacement `0.2` clears the dead-zone. -/
theorem handleMouseUp_box_characterization_witness :
    (handleMouseUp .area [exampleSegment] [] ⟨none, some ⟨3/20, 1/5⟩⟩ ⟨7/20, 3/10⟩).1.Nodup :=
  (handleMouseUp_box_characterization.2.1 [exampleSegment] [] none ⟨3/20, 1/5⟩ ⟨7/20, 3/10⟩
    (by norm_num [abs_of_pos])).1

theorem handleMouseUp_single_eq (segs : List TextSegment) (sel : List ℕ) (st : CanvasState)
    (e : Pt) : (handleMouseUp .single segs sel st e).1 = singlePick segs sel e := by
  cases st with
  | mk pa ds =>
    cases ds with
    | none => rfl
    | some d =>
      show (if SelMode.single = SelMode.area ∧ |e.x - d.x| > 1 / 100
          then applyBoxSelect segs sel d e else singlePick segs sel e) = singlePick segs sel e
      rw [if_neg]
      rintro ⟨h, -⟩
      exact SelMode.noConfusion h

theorem mem_singlePick_twice (segs : List TextSegment) (sel : List ℕ) (e : Pt) (j : ℕ) :
    j ∈ singlePick segs (singlePick segs sel e) e ↔ j ∈ sel := by
  cases hb : findNearest segs e with
  | none => simp [singlePick, hb]
  | some b =>
    by_cases hbs : b ∈ sel
    · have h1 : singlePick segs sel e = sel.filter (fun i => i != b) := by
        simp [singlePick, hb, hbs]
      have hb2 : b ∉ sel.filter (fun i => i != b) := by simp
      have h2 : singlePick segs (sel.filter (fun i => i != b)) e =
          sel.filter (fun i => i != b) ++ [b] := by
        simp [singlePick, hb, hb2]
      rw [h1, h2]
      by_cases hjb : j = b
      · subst hjb; simp [hbs]
      · simp [hjb]
    · have h1 : singlePick segs sel e = sel ++ [b] := by
        simp [singlePick, hb, hbs]
      have hb2 : b ∈ sel ++ [b] := by simp
      have h2 : singlePick segs (sel ++ [b]) e = (sel ++ [b]).filter (fun i => i != b) := by
        simp [singlePick, hb, hb2]
      rw [h1, h2]
      by_cases hjb : j = b
      · subst hjb; simp [hbs]
      · simp [hjb]

theorem findNearest_eq_none (segs : List TextSegment) (e : Pt)
    (h : ∀ s ∈ segs, ¬ distSq e (segAnchor s) < (5 / 100 : ℚ) * (5 / 100)) :
    findNearest segs e = none := by
  have H : ∀ (l : List (ℕ × TextSegment)) (acc : Option ℕ × ℚ),
      acc.2 ≤ (5 / 100 : ℚ) * (5 / 100) →
      (∀ pr ∈ l, ¬ distSq e (segAnchor pr.2) < (5 / 100 : ℚ) * (5 / 100)) →
      (l.foldl (fun acc pr =>
          let d := distSq e (segAnchor pr.2)
          if d < acc.2 then (some pr.1, d) else acc) acc).1 = acc.1 := by
    intro l
    induction l with
    | nil => intro acc _ _; rfl
    | cons pr l ih =>
      intro acc hacc hl
      have hd : ¬ distSq e (segAnchor pr.2) < acc.2 := fun hlt =>
        hl pr (List.mem_cons_self pr l) (lt_of_lt_of_le hlt hacc)
      simp only [List.foldl_cons, if_neg hd]
      exact ih acc hacc fun q hq => hl q (List.mem_cons_of_mem pr hq)
  unfold findNearest
  exact H segs.enum ((none : Option ℕ), (5 / 100 : ℚ) * (5 / 100)) le_rfl
    fun pr hpr => h pr.2 (by
      rcases pr with ⟨i, s⟩
      exact List.getElem?_mem (List.mk_mem_enum_iff_getElem?.mp hpr))

/-- C4: in single mode, a pointer-up toggles the membership of the
nearest segment whose anchor `(xRatio + widthRatio/2, yRatio −
heightRatio/2)` lies strictly within distance `0.05` of the release
point (distances compared squared, which is equivalent under the
monotone square root), so two identical pointer-ups return the
selection to its initial state as a set; and when no anchor is within
`0.05` the selection is unchanged. -/
theorem singleMode_toggle (segs : List TextSegment) (sel : List ℕ) (st st' : CanvasState)
    (e : Pt) :
    (∀ j, j ∈ (handleMouseUp .single segs
        (handleMouseUp .single segs sel st e).1 st' e).1 ↔ j ∈ sel) ∧
      ((∀ s ∈ segs, ¬ distSq e (segAnchor s) < (5 / 100 : ℚ) * (5 / 100)) →
        (handleMouseUp .single segs sel st e).1 = sel) := by
  constructor
  · intro j
    rw [handleMouseUp_single_eq, handleMouseUp_single_eq]
    exact mem_singlePick_twice segs sel e j
  · intro h
    rw [handleMouseUp_single_eq]
    simp [singlePick, findNearest_eq_none segs e h]

/-- Witness for `singleMode_toggle`: a release point far away from the
only segment's anchor leaves the selection `[2]` untouched. -/
theorem singleMode_toggle_witness :
    (handleMouseUp .single [exampleSegment] [2] ⟨none, none⟩ ⟨9/10, 9/10⟩).1 = [2] :=
  (singleMode_toggle [exampleSegment] [2] ⟨none, none⟩ ⟨none, none⟩ ⟨9/10, 9/10⟩).2
    (by
      intro s hs
      rw [List.mem_singleton] at hs
      subst hs
      norm_num [distSq, segAnchor, exampleSegment])

/-- C7 counterexample: a purely vertical drag from `(0.3, 0.1)` to
`(0.3, 0.9)` has displacement `0.8` (squared: `0.64`), far above the
dead-zone `0.01`, and its axis-aligned box would select segment `0`;
yet pointer-up performs no box selection (the code tests only the
horizontal displacement `|end.x − start.x|`, which is `0` here) and the
nearest-point fallback leaves the selection empty. -/
theorem areaMode_vertical_drag_counterexample :
    distSq ⟨3/10, 1/10⟩ ⟨3/10, 9/10⟩ > (1/100 : ℚ) * (1/100) ∧
      applyBoxSelect [verticalDragSegment] [] ⟨3/10, 1/10⟩ ⟨3/10, 9/10⟩ = [0] ∧
      (handleMouseUp .area [verticalDragSegment] [] ⟨none, some ⟨3/10, 1/10⟩⟩ ⟨3/10, 9/10⟩).1
        = [] := by
  refine ⟨by norm_num [distSq], ?_, ?_⟩
  · norm_num [applyBoxSelect, boxNewIndices, segBoxOverlap, jsSetDedup, jsSetDedupAux,
      verticalDragSegment, List.enum, List.enumFrom, List.filter, min_def, max_def]
  · norm_num [handleMouseUp, singlePick, findNearest, distSq, segAnchor, verticalDragSegment,
      List.enum, List.enumFrom, List.foldl]

/-- C7 (amended): in area mode with a recorded drag start, pointer-up
performs the axis-aligned-box selection exactly when the *horizontal*
displacement `|end.x − start.x|` exceeds the `0.01` dead-zone; for every
smaller horizontal displacement — regardless of the vertical one — it
falls back to the nearest-point picking of single mode. -/
theorem areaMode_deadzone_horizontal (segs : List TextSegment) (sel : List ℕ)
    (pa : Option Pt) (d e : Pt) :
    (|e.x - d.x| > 1 / 100 →
      (handleMouseUp .area segs sel ⟨pa, some d⟩ e).1 = applyBoxSelect segs sel d e) ∧
      (|e.x - d.x| ≤ 1 / 100 →
        (handleMouseUp .area segs sel ⟨pa, some d⟩ e).1 = singlePick segs sel e) := by
  constructor
  · intro h
    show (if SelMode.area = SelMode.area ∧ |e.x - d.x| > 1 / 100
        then applyBoxSelect segs sel d e else singlePick segs sel e) = applyBoxSelect segs sel d e
    rw [if_pos ⟨rfl, h⟩]
  · intro h
    show (if SelMode.area = SelMode.area ∧ |e.x - d.x| > 1 / 100
        then applyBoxSelect segs sel d e else singlePick segs sel e) = singlePick segs sel e
    rw [if_neg]
    rintro ⟨-, hgt⟩
    exact absurd h (not_le.mpr hgt)

/-- Witness for `areaMode_deadzone_horizontal`: a drag of horizontal
displacement `1` performs the box selection. -/
theorem areaMode_deadzone_horizontal_witness :
    (handleMouseUp .area [] [] ⟨none, some ⟨0, 0⟩⟩ ⟨1, 0⟩).1 =
      applyBoxSelect [] [] ⟨0, 0⟩ ⟨1, 0⟩ :=
  (areaMode_deadzone_horizontal [] [] none ⟨0, 0⟩ ⟨1, 0⟩).1 (by norm_num)

/-- C8 counterexample: an item whose transform origin lies left of the
page (`tx = −10`) survives extraction with `xRatio = −0.1 ∉ [0, 1]`:
the code never clamps the ratios. -/
theorem extract_ratio_counterexample :
    ¬ ∀ s ∈ extractTextSegments (fun q => q) ⟨100, 100⟩ [negativeXItem],
        0 ≤ s.xRatio ∧ s.xRatio ≤ 1 := by
  intro h
  have hcond : ((negativeXItem : TextItem).str != "" &&
      decide (0 < (jsTrim (negativeXItem : TextItem).str).length)) = true := by decide
  have hext : extractTextSegments (fun q => q) ⟨100, 100⟩ [negativeXItem] =
      [mkSegment (fun q => q) ⟨100, 100⟩ negativeXItem] := by
    simp [extractTextSegments, List.filter_cons, hcond]
  have hmem : mkSegment (fun q => q) ⟨100, 100⟩ negativeXItem ∈
      extractTextSegments (fun q => q) ⟨100, 100⟩ [negativeXItem] := by
    rw [hext]; exact List.mem_singleton_self _
  have := (h _ hmem).1
  norm_num [mkSegment, negativeXItem] at this

/-- C8 (amended): every segment produced by extraction has its four
ratios in `[0, 1]`, provided the viewport is positive and each item's
transform origin lies inside the viewport, its width is at most the
viewport width, and its computed font size is nonnegative and at most
the viewport height. -/
theorem extract_ratios_bounded (sqrtFn : ℚ → ℚ) (vp : Viewport) (items : List TextItem)
    (hW : 0 < vp.width) (hH : 0 < vp.height)
    (hitems : ∀ it ∈ items,
      0 ≤ it.t4 ∧ it.t4 ≤ vp.width ∧ 0 ≤ it.t5 ∧ it.t5 ≤ vp.height ∧
        0 ≤ it.width ∧ it.width ≤ vp.width ∧
        0 ≤ sqrtFn (it.t0 * it.t0 + it.t1 * it.t1) ∧
        sqrtFn (it.t0 * it.t0 + it.t1 * it.t1) ≤ vp.height) :
    ∀ s ∈ extractTextSegments sqrtFn vp items,
      (0 ≤ s.xRatio ∧ s.xRatio ≤ 1) ∧ (0 ≤ s.yRatio ∧ s.yRatio ≤ 1) ∧
        (0 ≤ s.widthRatio ∧ s.widthRatio ≤ 1) ∧ (0 ≤ s.heightRatio ∧ s.heightRatio ≤ 1) := by
  intro s hs
  unfold extractTextSegments at hs
  rcases List.mem_map.mp hs with ⟨it, hitmem, rfl⟩
  obtain ⟨h1, h2, h3, h4, h5, h6, h7, h8⟩ := hitems it (List.mem_of_mem_filter hitmem)
  simp only [mkSegment]
  exact ⟨⟨div_nonneg h1 hW.le, (div_le_one hW).mpr h2⟩,
    ⟨div_nonneg (sub_nonneg.mpr h4) hH.le, (div_le_one hH).mpr (sub_le_self _ h3)⟩,
    ⟨div_nonneg h5 hW.le, (div_le_one hW).mpr h6⟩,
    ⟨div_nonneg h7 hH.le, (div_le_one hH).mpr h8⟩⟩

/-- Witness for `extract_ratios_bounded`: the segment extracted from an
in-bounds item in a `100 × 100` viewport has its ratios inside `[0, 1]`. -/
theorem extract_ratios_bounded_witness :
    (0 ≤ (mkSegment (fun q => q) ⟨100, 100⟩ inBoundsItem).xRatio ∧
        (mkSegment (fun q => q) ⟨100, 100⟩ inBoundsItem).xRatio ≤ 1) ∧
      (0 ≤ (mkSegment (fun q => q) ⟨100, 100⟩ inBoundsItem).yRatio ∧
        (mkSegment (fun q => q) ⟨100, 100⟩ inBoundsItem).yRatio ≤ 1) ∧
      (0 ≤ (mkSegment (fun q => q) ⟨100, 100⟩ inBoundsItem).widthRatio ∧
        (mkSegment (fun q => q) ⟨100, 100⟩ inBoundsItem).widthRatio ≤ 1) ∧
      (0 ≤ (mkSegment (fun q => q) ⟨100, 100⟩ inBoundsItem).heightRatio ∧
        (mkSegment (fun q => q) ⟨100, 100⟩ inBoundsItem).heightRatio ≤ 1) :=
  extract_ratios_bounded (fun q => q) ⟨100, 100⟩ [inBoundsItem]
    (by norm_num) (by norm_num)
    (by
      intro it hit
      rw [List.mem_singleton] at hit
      subst hit
      norm_num [inBoundsItem])
    (mkSegment (fun q => q) ⟨100, 100⟩ inBoundsItem)
    (by
      have hcond : ((inBoundsItem : TextItem).str != "" &&
          decide (0 < (jsTrim (inBoundsItem : TextItem).str).length)) = true := by decide
      simp [extractTextSegments, List.filter_cons, hcond])

/-- C2 counterexample: with box width `B = 0` (a segment of zero
`widthRatio`), `drawAutoFitText` does not shrink at all — the guard
requires `maxWidth > 0` — so a text of measured width `10` is painted
at width `10 > 0 = B`, refuting "for every box width B the rendered
width is at most B". -/
theorem drawAutoFitText_zero_box_counterexample :
    ¬ measureTextWidth (fun _ => 1)
        (drawAutoFitText (fun _ => 1) "hi" 0 0 0 10).fontSize "hi" ≤ 0 := by
  norm_num [drawAutoFitText, measureTextWidth]

/-- C2 (amended): for every text string and every positive box width
`B`, the auto-fit draw paints the text at a font size whose measured
width is at most `B` (exactly, in the rational model); when the measured
width at the base (nominal scaled) size is already at most `B`, the font
size is unchanged; and the text is painted once, unwrapped and
unmodified. -/
theorem drawAutoFitText_fits (uw : String → ℚ) (text : String) (x y B base : ℚ)
    (hB : 0 < B) :
    measureTextWidth uw (drawAutoFitText uw text x y B base).fontSize text ≤ B ∧
      (measureTextWidth uw base text ≤ B →
        (drawAutoFitText uw text x y B base).fontSize = base) ∧
      (drawAutoFitText uw text x y B base).text = text := by
  simp only [drawAutoFitText, measureTextWidth]
  split_ifs with h
  · refine ⟨?_, ?_, rfl⟩
    · have hw : base * uw text ≠ 0 := ne_of_gt (lt_trans hB h.1)
      have : base * (B / (base * uw text)) * uw text = B := by
        field_simp
        ring
      simp [this]
    · intro hle
      exact absurd h.1 (not_lt.mpr hle)
  · have hle : base * uw text ≤ B := by
      by_contra hgt
      exact h ⟨not_le.mp hgt, hB⟩
    exact ⟨hle, fun _ => rfl, rfl⟩

/-- Witness for `drawAutoFitText_fits`: a text of nominal width `20`
squeezed into a box of width `4` is rendered with measured width `≤ 4`. -/
theorem drawAutoFitText_fits_witness :
    measureTextWidth (fun _ => 2)
      (drawAutoFitText (fun _ => 2) "abc" 0 0 4 10).fontSize "abc" ≤ 4 :=
  (drawAutoFitText_fits (fun _ => 2) "abc" 0 0 4 10 (by norm_num)).1

theorem mergeSegments_text_getElem? (segs : List TextSegment) (ts : List String) (i : ℕ)
    (s : TextSegment) (h : segs[i]? = some s) :
    ((mergeSegments segs ts).map (·.text))[i]? = some (jsOr (ts.getD i "") s.text) := by
  rw [mergeSegments, List.getElem?_map, List.getElem?_map, List.getElem?_enum, h]
  rfl

/-- C5 counterexample: input texts `["a", "b", "c"]` with backend
response `["", "y"]` (shorter than the input, and empty at the covered
index `0`) merges to `["a", "y", "c"]`, not `["", "y", "c"]`: a covered
index does not always carry the response's string. -/
theorem merge_covered_empty_counterexample :
    ((mergeSegments [plainSegment "a", plainSegment "b", plainSegment "c"] ["", "y"]).map
        (·.text)) = ["a", "y", "c"] ∧
      ¬ ((mergeSegments [plainSegment "a", plainSegment "b", plainSegment "c"] ["", "y"]).map
          (·.text)) = ["", "y", "c"] := by
  exact ⟨rfl, by decide⟩

/-- C5 (amended): the merge preserves the number of segments; the saved
segment at index `i` carries the backend's string exactly when the
response covers `i` with a non-empty entry, and falls back to the
original extracted text at every unmatched index and at covered indices
whose entry is empty — the merge is a total function, so a short
response never raises; and the spec's example
`["a","b","c"]` with `["x","y"]` yields `["x","y","c"]`. -/
theorem mergeSegments_fallback (segs : List TextSegment) (ts : List String) :
    (mergeSegments segs ts).length = segs.length ∧
      (∀ i s, segs[i]? = some s →
        ((mergeSegments segs ts).map (·.text))[i]? =
          some (if i < ts.length ∧ ts.getD i "" ≠ "" then ts.getD i "" else s.text)) ∧
      ((mergeSegments [plainSegment "a", plainSegment "b", plainSegment "c"] ["x", "y"]).map
        (·.text)) = ["x", "y", "c"] := by
  refine ⟨by simp [mergeSegments], ?_, rfl⟩
  intro i s h
  rw [mergeSegments_text_getElem? segs ts i s h]
  by_cases he : ts.getD i "" = ""
  · have h1 : jsOr (ts.getD i "") s.text = s.text := by
      rw [jsOr, if_pos he]
    have h2 : (if i < ts.length ∧ ts.getD i "" ≠ "" then ts.getD i "" else s.text) = s.text := by
      rw [if_neg]
      rintro ⟨-, hne⟩
      exact hne he
    rw [h1, h2]
  · have h1 : jsOr (ts.getD i "") s.text = ts.getD i "" := by
      rw [jsOr, if_neg he]
    have hlt : i < ts.length := by
      by_contra hge
      exact he (List.getD_eq_default ts "" (not_lt.mp hge))
    rw [h1, if_pos ⟨hlt, he⟩]

/-- Witness for `mergeSegments_fallback`: a one-element merge carries
the translated string. -/
theorem mergeSegments_fallback_witness :
    ((mergeSegments [plainSegment "a"] ["x"]).map (·.text))[0]? = some "x" :=
  (mergeSegments_fallback [plainSegment "a"] ["x"]).2.1 0 (plainSegment "a") rfl

/-- C10: the saved segment keeps its original extracted text whenever
the response entry at its index is the empty string — even when the
response has the same length as the input — and carries the response
entry exactly when it is non-empty; e.g. `["a","b"]` merged with
`["", "y"]` (same length) yields `["a", "y"]`. -/
theorem merge_empty_entry_fallback (segs : List TextSegment) (ts : List String) :
    (∀ (i : ℕ) (s : TextSegment), segs[i]? = some s → ts[i]? = some "" →
        ((mergeSegments segs ts).map (·.text))[i]? = some s.text) ∧
      (∀ (i : ℕ) (s : TextSegment) (t : String), segs[i]? = some s → ts[i]? = some t → t ≠ "" →
        ((mergeSegments segs ts).map (·.text))[i]? = some t) ∧
      ((mergeSegments [plainSegment "a", plainSegment "b"] ["", "y"]).map (·.text))
        = ["a", "y"] := by
  refine ⟨?_, ?_, rfl⟩
  · intro i s hs ht
    rw [mergeSegments_text_getElem? segs ts i s hs]
    simp [jsOr, List.getD_eq_getElem?_getD, ht]
  · intro i s t hs ht hne
    rw [mergeSegments_text_getElem? segs ts i s hs]
    simp [jsOr, List.getD_eq_getElem?_getD, ht, hne]

/-- Witness for `merge_empty_entry_fallback`: an empty response entry at
index `0` keeps the original text `"a"`. -/
theorem merge_empty_entry_fallback_witness :
    ((mergeSegments [plainSegment "a"] [""]).map (·.text))[0]? = some "a" :=
  (merge_empty_entry_fallback [plainSegment "a"] [""]).1 0 (plainSegment "a") rfl rfl

/-- C6 counterexample: in free mode a backend failure on page `2` of
the range `[1, 2, 3]` does not abort the pass: no user-visible message
is produced and all three pages — including the pages after the failure
— are extracted, translated (page `2` falling back to its original
texts) and saved. -/
theorem freeMode_failure_continues_counterexample :
    (runPass false none (fun _ => [plainSegment "t"])
          (fun n => if n = 2 then .fail "boom" else .okParts ["x"]) [1, 2, 3]).2 = none ∧
      ((runPass false none (fun _ => [plainSegment "t"])
          (fun n => if n = 2 then .fail "boom" else .okParts ["x"]) [1, 2, 3]).1.map Prod.fst)
        = [1, 2, 3] :=
  ⟨rfl, rfl⟩

theorem translateEconomic_error_ne_empty (e : String) :
    ("Falha na tradução IA: " ++ e ++ ". Verifique se sua API Key é válida.") ≠ "" := by
  intro h
  have hlen := congrArg String.length h
  rw [String.length_append, String.length_append,
    show ("" : String).length = 0 from rfl] at hlen
  have h1 : 0 < ("Falha na tradução IA: ").length := by decide
  omega

/-- C6 (amended): with the free backend (`translateFree`), a failed or
malformed backend call is swallowed at the call site — the pass never
aborts, produces no message, and saves an entry for every page of the
range (a failed page keeps its original texts).  With the AI backend
(`translateEconomic`), a failed call on a page with extracted text
aborts the pass at that page with a user-visible message and nothing
further is saved, while every page completed before the failure remains
persisted: a successful page prepends its saved entry and the pass
continues behind it. -/
theorem runPass_error_handling :
    (∀ (apiKey : Option String) (pages : ℕ → List TextSegment) (outcome : ℕ → FetchOutcome)
        (ns : List ℕ),
      (runPass false apiKey pages outcome ns).2 = none ∧
        (runPass false apiKey pages outcome ns).1.map Prod.fst = ns) ∧
      (∀ (k : String) (pages : ℕ → List TextSegment) (outcome : ℕ → FetchOutcome) (n : ℕ)
          (rest : List ℕ) (e : String),
        pages n ≠ [] → outcome n = .fail e →
        runPass true (some k) pages outcome (n :: rest) =
          ([], some ("Falha na tradução IA: " ++ e ++ ". Verifique se sua API Key é válida."))) ∧
      (∀ (k : String) (pages : ℕ → List TextSegment) (outcome : ℕ → FetchOutcome) (n : ℕ)
          (rest : List ℕ) (parts : List String),
        pages n ≠ [] → outcome n = .okParts parts →
        runPass true (some k) pages outcome (n :: rest) =
          ((n, mergeSegments (pages n) parts) :: (runPass true (some k) pages outcome rest).1,
            (runPass true (some k) pages outcome rest).2)) := by
  refine ⟨?_, ?_, ?_⟩
  · intro apiKey pages outcome ns
    induction ns with
    | nil => exact ⟨rfl, rfl⟩
    | cons n rest ih =>
      simp only [runPass, Bool.false_eq_true, if_false, List.map_cons]
      exact ⟨ih.1, by rw [ih.2]⟩
  · intro k pages outcome n rest e hne hout
    have htexts : (pages n).map (·.text) ≠ [] := by
      simpa using hne
    simp only [runPass, if_true, translateEconomic, hout, if_neg htexts]
    rw [jsOr, if_neg (translateEconomic_error_ne_empty e)]
  · intro k pages outcome n rest parts hne hout
    have htexts : (pages n).map (·.text) ≠ [] := by
      simpa using hne
    simp only [runPass, if_true, translateEconomic, hout, if_neg htexts]

/-- Witness for `runPass_error_handling`: an AI-mode pass whose only
page fails aborts with the prefixed message and saves nothing. -/
theorem runPass_error_handling_witness :
    runPass true (some "k") (fun _ => [plainSegment "t"]) (fun _ => .fail "x") [7] =
      ([], some ("Falha na tradução IA: " ++ "x" ++ ". Verifique se sua API Key é válida.")) :=
  runPass_error_handling.2.1 "k" (fun _ => [plainSegment "t"]) (fun _ => .fail "x") 7 [] "x"
    (by simp) rfl

theorem mem_foldl_filter_deletes :
    ∀ (ks : List String) (st : List PageRec) (pg : PageRec),
      pg ∈ ks.foldl (fun st k => st.filter fun p => p.id != k) st →
        pg ∈ st ∧ ∀ k ∈ ks, pg.id ≠ k := by
  intro ks
  induction ks with
  | nil =>
    intro st pg h
    exact ⟨h, by simp⟩
  | cons k ks ih =>
    intro st pg h
    simp only [List.foldl_cons] at h
    obtain ⟨hmem, hall⟩ := ih _ pg h
    have hf := List.mem_filter.mp hmem
    refine ⟨hf.1, ?_⟩
    intro k' hk'
    rcases List.mem_cons.mp hk' with rfl | hk'
    · simpa using hf.2
    · exact hall k' hk'

/-- C9: `deleteProject` removes the project's metadata record, its
binary blob, and every stored page whose `projectId` equals the id;
afterwards the project is absent from `getAllProjects`, `getFile`
returns null, and `getProjectPages` returns the empty list. -/
theorem deleteProject_cascades (db : DBState) (pid : String) :
    (∀ p ∈ getAllProjects (deleteProject db pid), p.id ≠ pid) ∧
      getFile (deleteProject db pid) pid = none ∧
      getProjectPages (deleteProject db pid) pid = [] := by
  refine ⟨?_, ?_, ?_⟩
  · intro p hp
    have := (List.mem_filter.mp hp).2
    simpa using this
  · have hfind : (deleteProject db pid).files.find? (fun f => f.projectId == pid) = none := by
      rw [List.find?_eq_none]
      intro f hf hbeq
      have := (List.mem_filter.mp hf).2
      simp at this hbeq
      exact this hbeq
    rw [getFile, hfind]
  · rw [getProjectPages, List.filter_eq_nil_iff]
    intro pg hpg hbeq
    obtain ⟨hmem, hall⟩ := mem_foldl_filter_deletes _ db.pages pg hpg
    have hpid : pg.projectId = pid := by simpa using hbeq
    have hkey : pg.id ∈ (db.pages.filter fun p => p.projectId == pid).map (·.id) :=
      List.mem_map.mpr ⟨pg, List.mem_filter.mpr ⟨hmem, by simp [hpid]⟩, rfl⟩
    exact hall pg.id hkey rfl

end PolyglotPdf
